import Mathlib

/-!
Verification of the Bitstamp live broker adapter
(`pyalgotrade/bitstamp/livebroker.py`).

The Python module is shallowly embedded below: Python `dict`s become
association lists, monetary amounts and quantities become `ℚ`, Python
exceptions become explicit error values (`Except` results or a `raised`
flag paired with the state at the raise point, since a Python exception
leaves already-performed mutations in place), and the external HTTP
client is a parameter: each call site receives the call's outcome as an
`Except` argument.
-/

namespace PyAlgoTrade

/-! ### Association lists: the model of Python `dict` -/

/-- `dict.get(k)` / `dict[k]` lookup on an association list. -/
def alistLookup {α β : Type} [DecidableEq α] (k : α) : List (α × β) → Option β
  | [] => none
  | (k', v) :: rest => if k' = k then some v else alistLookup k rest

/-- `del dict[k]` (on a present key) / key removal. -/
def alistErase {α β : Type} [DecidableEq α] (k : α) (l : List (α × β)) : List (α × β) :=
  l.filter fun p => decide (p.1 ≠ k)

/-- `dict[k] = v`: set the key `k` to `v`. -/
def alistInsert {α β : Type} [DecidableEq α] (k : α) (v : β) (l : List (α × β)) : List (α × β) :=
  (k, v) :: alistErase k l

/-- Overwrite the value stored at `k` when the key is present, keep the
list unchanged when it is absent.  This models the in-place mutation of
an object that a `dict` entry aliases. -/
def alistUpdate {α β : Type} [DecidableEq α] (k : α) (v : β) : List (α × β) → List (α × β)
  | [] => []
  | (k', v') :: rest => if k' = k then (k', v) :: rest else (k', v') :: alistUpdate k v rest

/-! ### Numeric rounding -/

/-- Python's `round(x, n)`: round to `n` decimal places.  (Tie-breaking
differs between Python's banker's rounding and Mathlib's `round`; no
property below depends on the tie case.) -/
def roundTo (n : Nat) (x : ℚ) : ℚ :=
  ((round (x * 10 ^ n) : ℤ) : ℚ) / 10 ^ n

/-! ### External broker-framework types -/

inductive OrderState
  | accepted
  | partiallyFilled
  | filled
  | canceled
  deriving DecidableEq, Repr

inductive OrderAction
  | buy
  | sell
  deriving DecidableEq, Repr

/-- Modelled from the spec: the `Order` type is owned by the external
broker framework (`pyalgotrade.broker`), which is not part of the
source under verification.  Per the spec it carries an identifier, a
side, a limit price, a full quantity, the cumulative filled quantity
and a state. -/
structure Order where
  id : Nat
  action : OrderAction
  limitPrice : ℚ
  quantity : ℚ
  filled : ℚ
  state : OrderState
  deriving DecidableEq, Repr

/-- `Order.isActive` from the broker framework: an order is active while
it is not in a terminal state. -/
def Order.isActive (o : Order) : Bool :=
  match o.state with
  | .accepted => true
  | .partiallyFilled => true
  | .filled => false
  | .canceled => false

/-- `Order.isFilled` from the broker framework. -/
def Order.isFilled (o : Order) : Bool :=
  o.state = OrderState.filled

/-- Modelled from the spec: `Order.addExecutionInfo` of the external
broker framework appends an execution record; the cumulative filled
quantity grows by the executed quantity and the order transitions to
Filled when the cumulative filled quantity reaches the full order
quantity, otherwise to PartiallyFilled. -/
def Order.addExecutionInfo (o : Order) (execQuantity : ℚ) : Order :=
  let newFilled := o.filled + execQuantity
  { o with
    filled := newFilled
    state := if newFilled = o.quantity then OrderState.filled else OrderState.partiallyFilled }

structure OrderExecutionInfo where
  price : ℚ
  quantity : ℚ
  fee : ℚ
  dateTime : Int
  deriving DecidableEq, Repr

inductive OrderEventType
  | filled
  | partiallyFilled
  | canceled
  deriving DecidableEq, Repr

structure OrderEvent where
  order : Order
  eventType : OrderEventType
  info : Option OrderExecutionInfo
  deriving DecidableEq, Repr

/-! ### Exchange-reported data -/

/-- A user trade as reported by `getUserTransactions` (newest first). -/
structure Trade where
  id : Int
  orderId : Nat
  btc : ℚ
  usd : ℚ
  fee : ℚ
  btcusd : ℚ
  dateTime : Int
  deriving DecidableEq, Repr

inductive OpenOrderSide
  | buy
  | sell
  | invalid
  deriving DecidableEq, Repr

/-- An open order snapshot as reported by `getOpenOrders`. -/
structure OpenOrder where
  id : Nat
  side : OpenOrderSide
  price : ℚ
  amount : ℚ
  dateTime : Int
  deriving DecidableEq, Repr

/-- An account balance snapshot as reported by `getAccountBalance`. -/
structure Balance where
  usdAvailable : ℚ
  btcAvailable : ℚ
  deriving DecidableEq, Repr

/-- Python exception values raised by the module. -/
inductive PyError
  | notImplementedError
  | marketOrdersNotSupported
  | stopOrdersNotSupported
  | stopLimitOrdersNotSupported
  | invalidOrderType
  | keyError
  | httpError
  deriving DecidableEq, Repr

/-- Log records written by the module (only the ones the properties
mention are given structure). -/
inductive LogMsg
  | tradeNotActive (tradeId : Int) (orderId : Nat)
  | criticalFetchFailure
  deriving DecidableEq, Repr

def btc_symbol : String := "BTC"

/-! ### TradeMonitor: the incremental trade poller

`TradeMonitor._getNewTrades` scans the newest-first feed, collects the
trades with id strictly above the watermark, stops at the first trade at
or below it, and reverses to oldest-first.  `TradeMonitor.run` is the
polling loop: each cycle fetches (outcome passed in as an `Except`),
advances the watermark to the newest collected id and publishes the
batch when it is non-empty, and swallows any fetch exception after
logging it. -/

/-- `TradeMonitor._getNewTrades`, as a function of the current watermark
and the fetched newest-first feed. -/
def getNewTrades (w : Int) (fetched : List Trade) : List Trade :=
  (fetched.takeWhile fun t => decide (w < t.id)).reverse

/-- One successful polling cycle of `TradeMonitor.run`: the new
watermark and the published batch (`[]` when nothing is published). -/
def runCycle (w : Int) (fetched : List Trade) : Int × List Trade :=
  let newTrades := getNewTrades w fetched
  match newTrades.getLast? with
  | some t => (t.id, newTrades)
  | none => (w, [])

/-- One polling cycle of `TradeMonitor.run` with the fetch outcome made
explicit: returns the new watermark, the batches put on the queue, and
the number of critical log records written.  A fetch failure is caught
by the `except` clause: it is logged and the cycle ends normally. -/
def runCycleE (w : Int) (fetch : Except Unit (List Trade)) : Int × List (List Trade) × Nat :=
  match fetch with
  | .error _ => (w, [], 1)
  | .ok fetched =>
      let r := runCycle w fetched
      (r.1, if r.2.isEmpty then [] else [r.2], 0)

/-- The polling loop of `TradeMonitor.run` over a finite schedule of
fetch outcomes: final watermark, all published batches in order, and
the number of critical log records. -/
def runCyclesE (w : Int) : List (Except Unit (List Trade)) → Int × List (List Trade) × Nat
  | [] => (w, [], 0)
  | f :: rest =>
      let r := runCycleE w f
      let r2 := runCyclesE r.1 rest
      (r2.1, r.2.1 ++ r2.2.1, r.2.2 + r2.2.2)

/-- The per-cycle trace of the polling loop over successful fetches:
for each cycle, the watermark before the cycle, the published batch
(`[]` when nothing is published) and the watermark after the cycle. -/
def monitorTrace (w : Int) : List (List Trade) → List (Int × List Trade × Int)
  | [] => []
  | s :: rest =>
      (w, (runCycle w s).2, (runCycle w s).1) :: monitorTrace (runCycle w s).1 rest

/-- The watermark after a sequence of successful fetch cycles. -/
def finalWatermark (w : Int) (snaps : List (List Trade)) : Int :=
  snaps.foldl (fun a s => (runCycle a s).1) w

/-! ### LiveBroker state -/

/-- The mutable state of a `LiveBroker` (together with the watermark and
started flag of its owned `TradeMonitor`). -/
structure LiveBrokerSt where
  stop : Bool
  cash : ℚ
  shares : List (String × ℚ)
  activeOrders : List (Nat × Order)
  monitorStarted : Bool
  monitorLastTradeId : Int
  deriving DecidableEq, Repr

/-- `LiveBroker.__init__`. -/
def initialState : LiveBrokerSt :=
  { stop := false
    cash := 0
    shares := []
    activeOrders := []
    monitorStarted := false
    monitorLastTradeId := -1 }

/-- `LiveBroker.eof`. -/
def eof (st : LiveBrokerSt) : Bool :=
  st.stop

/-- `LiveBroker.getCash`. -/
def getCash (st : LiveBrokerSt) : ℚ :=
  st.cash

/-- `LiveBroker.getShares`: `self.__shares.get(instrument, 0)`. -/
def getShares (st : LiveBrokerSt) (instrument : String) : ℚ :=
  (alistLookup instrument st.shares).getD 0

/-- `LiveBroker.refreshAccountBalance`.  The stop flag is set before the
balance call and cleared only on success; the fetch outcome is the
`fetch` argument; the paired `Bool` is true when the call raised. -/
def refreshAccountBalance (st : LiveBrokerSt) (fetch : Except Unit Balance) :
    LiveBrokerSt × Bool :=
  let st1 := { st with stop := true }
  match fetch with
  | .error _ => (st1, true)
  | .ok balance =>
      ({ st1 with
          cash := roundTo 2 balance.usdAvailable
          shares := [(btc_symbol, balance.btcAvailable)]
          stop := false }, false)

/-- `build_order_from_open_order`. -/
def build_order_from_open_order (oo : OpenOrder) : Except PyError Order :=
  match oo.side with
  | .buy =>
      .ok { id := oo.id, action := .buy, limitPrice := oo.price, quantity := oo.amount
            filled := 0, state := .accepted }
  | .sell =>
      .ok { id := oo.id, action := .sell, limitPrice := oo.price, quantity := oo.amount
            filled := 0, state := .accepted }
  | .invalid => .error PyError.invalidOrderType

/-- The seeding loop of `LiveBroker.refreshOpenOrders`: insert each open
order into the active-orders map; a raise mid-loop keeps the already
performed insertions (the paired `Bool` is true when a raise occurred). -/
def seedOpenOrders (st : LiveBrokerSt) : List OpenOrder → LiveBrokerSt × Bool
  | [] => (st, false)
  | oo :: rest =>
      match build_order_from_open_order oo with
      | .error _ => (st, true)
      | .ok o =>
          seedOpenOrders { st with activeOrders := alistInsert oo.id o st.activeOrders } rest

/-- `LiveBroker.refreshOpenOrders`. -/
def refreshOpenOrders (st : LiveBrokerSt) (fetch : Except Unit (List OpenOrder)) :
    LiveBrokerSt × Bool :=
  let st1 := { st with stop := true }
  match fetch with
  | .error _ => (st1, true)
  | .ok openOrders =>
      let r := seedOpenOrders st1 openOrders
      if r.2 then r else ({ r.1 with stop := false }, false)

/-- `LiveBroker._startTradeMonitor` together with `TradeMonitor.start`:
one synchronous fetch establishes the initial watermark, then the
background thread is started. -/
def startTradeMonitor (st : LiveBrokerSt) (fetch : Except Unit (List Trade)) :
    LiveBrokerSt × Bool :=
  let st1 := { st with stop := true }
  match fetch with
  | .error _ => (st1, true)
  | .ok fetched =>
      ({ st1 with
          monitorLastTradeId := (runCycle st1.monitorLastTradeId fetched).1
          monitorStarted := true
          stop := false }, false)

/-- `LiveBroker.start`: balance refresh, then open-order refresh, then
trade-monitor start; a raise in any step propagates and skips the
remaining steps. -/
def startBroker (st : LiveBrokerSt) (bal : Except Unit Balance)
    (oo : Except Unit (List OpenOrder)) (tm : Except Unit (List Trade)) :
    LiveBrokerSt × Bool :=
  let r1 := refreshAccountBalance st bal
  if r1.2 then r1 else
  let r2 := refreshOpenOrders r1.1 oo
  if r2.2 then r2 else
  startTradeMonitor r2.1 tm

/-- The body of `LiveBroker._onUserTrades` for a single trade:
returns the new state, the emitted order events and the written log
records.  `rq` is the instrument traits' `roundQuantity`.  The order
object aliased by the active-orders map is mutated in place by
`addExecutionInfo`, which `alistUpdate` reflects. -/
def onUserTrade (rq : ℚ → ℚ) (st : LiveBrokerSt) (trade : Trade) :
    LiveBrokerSt × List OrderEvent × List LogMsg :=
  match alistLookup trade.orderId st.activeOrders with
  | some order =>
      let fee := trade.fee
      let fillPrice := trade.btcusd
      let btcAmount := trade.btc
      let usdAmount := trade.usd
      let newCash := roundTo 2 (st.cash + usdAmount - fee)
      let newBtc := rq ((alistLookup btc_symbol st.shares).getD 0 + btcAmount)
      let shares1 := alistInsert btc_symbol newBtc st.shares
      let shares2 := if newBtc = 0 then alistErase btc_symbol shares1 else shares1
      let active1 :=
        if order.isActive then st.activeOrders else alistErase order.id st.activeOrders
      let execInfo : OrderExecutionInfo :=
        { price := fillPrice, quantity := |btcAmount|, fee := fee, dateTime := trade.dateTime }
      let newOrder := order.addExecutionInfo |btcAmount|
      let active2 := alistUpdate trade.orderId newOrder active1
      let eventType :=
        if newOrder.isFilled then OrderEventType.filled else OrderEventType.partiallyFilled
      ({ st with cash := newCash, shares := shares2, activeOrders := active2 },
       [{ order := newOrder, eventType := eventType, info := some execInfo }], [])
  | none =>
      (st, [], [LogMsg.tradeNotActive trade.id trade.orderId])

/-- `LiveBroker._onUserTrades` over a batch, oldest first. -/
def onUserTrades (rq : ℚ → ℚ) (st : LiveBrokerSt) (trades : List Trade) :
    LiveBrokerSt × List OrderEvent × List LogMsg :=
  trades.foldl
    (fun acc t =>
      let r := onUserTrade rq acc.1 t
      (r.1, acc.2.1 ++ r.2.1, acc.2.2 ++ r.2.2))
    (st, [], [])

/-- The observable outcome of `LiveBroker.cancelOrder`. -/
structure CancelResult where
  st : LiveBrokerSt
  orderAfter : Order
  events : List OrderEvent
  httpCalled : Bool
  raised : Option PyError
  deriving DecidableEq, Repr

/-- `LiveBroker.cancelOrder`: the exchange-side cancel call comes first
(its outcome is the `httpOk` argument); then `del self.__activeOrders[id]`
(a `KeyError` when the key is absent), the state switch to Canceled, and
the Canceled event. -/
def cancelOrder (st : LiveBrokerSt) (order : Order) (httpOk : Bool) : CancelResult :=
  if httpOk then
    match alistLookup order.id st.activeOrders with
    | none =>
        { st := st, orderAfter := order, events := [], httpCalled := true
          raised := some PyError.keyError }
    | some _ =>
        let newOrder := { order with state := OrderState.canceled }
        { st := { st with activeOrders := alistErase order.id st.activeOrders }
          orderAfter := newOrder
          events := [{ order := newOrder, eventType := OrderEventType.canceled, info := none }]
          httpCalled := true
          raised := none }
  else
    { st := st, orderAfter := order, events := [], httpCalled := true
      raised := some PyError.httpError }

/-- `LiveBroker.submitOrder`: `raise NotImplementedError()`. -/
def submitOrder (st : LiveBrokerSt) (order : Order) : Except PyError LiveBrokerSt :=
  .error PyError.notImplementedError

/-- `LiveBroker.createMarketOrder`: raises "Market orders are not supported". -/
def createMarketOrder (st : LiveBrokerSt) (action : OrderAction) (instrument : String)
    (quantity : ℚ) (onClose : Bool) : Except PyError (LiveBrokerSt × Order) :=
  .error PyError.marketOrdersNotSupported

/-- `LiveBroker.createLimitOrder`: `raise NotImplementedError()`. -/
def createLimitOrder (st : LiveBrokerSt) (action : OrderAction) (instrument : String)
    (limitPrice quantity : ℚ) : Except PyError (LiveBrokerSt × Order) :=
  .error PyError.notImplementedError

/-- `LiveBroker.createStopOrder`: raises "Stop orders are not supported". -/
def createStopOrder (st : LiveBrokerSt) (action : OrderAction) (instrument : String)
    (stopPrice quantity : ℚ) : Except PyError (LiveBrokerSt × Order) :=
  .error PyError.stopOrdersNotSupported

/-- `LiveBroker.createStopLimitOrder`: raises "Stop limit orders are not supported". -/
def createStopLimitOrder (st : LiveBrokerSt) (action : OrderAction) (instrument : String)
    (stopPrice limitPrice quantity : ℚ) : Except PyError (LiveBrokerSt × Order) :=
  .error PyError.stopLimitOrdersNotSupported

/-! ### Concrete instances used by witnesses and counterexamples -/

/-- A tracked limit order about to be filled by a single trade. -/
def c1Order : Order :=
  { id := 1, action := .buy, limitPrice := 100, quantity := 1, filled := 0, state := .accepted }

def c1Broker : LiveBrokerSt := { initialState with activeOrders := [(1, c1Order)] }

/-- A trade that brings `c1Order`'s filled quantity up to its full quantity. -/
def c1Trade : Trade :=
  { id := 10, orderId := 1, btc := 1, usd := -100, fee := 0, btcusd := 100, dateTime := 0 }

/-- A trade carrying only an id, for watermark scenarios. -/
def c3Trade (n : Int) : Trade :=
  { id := n, orderId := 0, btc := 0, usd := 0, fee := 0, btcusd := 0, dateTime := 0 }

/-- Two newest-first fetch snapshots with overlapping trade histories. -/
def c3Snaps : List (List Trade) :=
  [[c3Trade 2, c3Trade 1], [c3Trade 3, c3Trade 2, c3Trade 1]]

def c5Order : Order :=
  { id := 1, action := .sell, limitPrice := 10, quantity := 1, filled := 0, state := .accepted }

def c5Broker : LiveBrokerSt := { initialState with activeOrders := [(1, c5Order)] }

/-- A sell trade whose base delta rounds the holding to zero. -/
def c5Trade : Trade :=
  { id := 3, orderId := 1, btc := -1, usd := 10, fee := 0, btcusd := 10, dateTime := 0 }

def c6Order : Order :=
  { id := 1, action := .buy, limitPrice := 100, quantity := 1, filled := 0, state := .accepted }

def c6Broker : LiveBrokerSt :=
  { initialState with cash := 1000, activeOrders := [(1, c6Order)] }

/-- The spec scenario: +0.4 BTC costing 40.00 with fee 0.10. -/
def c6Trade : Trade :=
  { id := 1, orderId := 1, btc := 2/5, usd := -40, fee := 1/10, btcusd := 100, dateTime := 0 }

/-- A trade referencing order id 77 which is not in active orders. -/
def c8Trade : Trade :=
  { id := 5, orderId := 77, btc := 1, usd := -10, fee := 0, btcusd := 10, dateTime := 0 }

/-- An order that is not tracked in the active-orders map. -/
def c10Order : Order :=
  { id := 7, action := .sell, limitPrice := 5, quantity := 2, filled := 0, state := .accepted }

/-! ### Association-list lemmas -/

theorem alistLookup_erase_self {α β : Type} [DecidableEq α] (k : α) (l : List (α × β)) :
    alistLookup k (alistErase k l) = none := by
  induction l with
  | nil => rfl
  | cons p rest ih =>
    by_cases hk : p.1 = k
    · simpa [alistErase, hk] using ih
    · simpa [alistErase, alistLookup, hk] using ih

theorem mem_alistErase {α β : Type} [DecidableEq α] {k : α} {l : List (α × β)} {p : α × β}
    (h : p ∈ alistErase k l) : p.1 ≠ k ∧ p ∈ l := by
  have h2 := List.mem_filter.mp h
  exact ⟨by simpa using h2.2, h2.1⟩

theorem mem_alistInsert {α β : Type} [DecidableEq α] {k : α} {v : β} {l : List (α × β)}
    {p : α × β} (h : p ∈ alistInsert k v l) : p = (k, v) ∨ p ∈ l := by
  rcases List.mem_cons.mp h with h | h
  · exact Or.inl h
  · exact Or.inr (mem_alistErase h).2

/-- Rounding to `n` decimal places is idempotent. -/
theorem roundTo_roundTo (n : Nat) (x : ℚ) : roundTo n (roundTo n x) = roundTo n x := by
  unfold roundTo
  rw [div_mul_cancel₀ _ (pow_ne_zero n (by norm_num)), round_intCast]

/-! ### TradeMonitor lemmas -/

/-- On a strictly descending feed, the scan-until-old `takeWhile` finds
every trade above the watermark. -/
theorem takeWhile_newer_eq_filter (w : Int) (l : List Trade)
    (h : l.Pairwise fun a b => b.id < a.id) :
    (l.takeWhile fun t => decide (w < t.id)) = l.filter fun t => decide (w < t.id) := by
  induction l with
  | nil => rfl
  | cons t rest ih =>
    rcases List.pairwise_cons.mp h with ⟨hhead, htail⟩
    by_cases hw : w < t.id
    · simp [List.takeWhile_cons, List.filter_cons, hw, ih htail]
    · simp only [List.takeWhile_cons, List.filter_cons, hw]
      simp only [decide_eq_true_eq, if_neg hw]
      symm
      refine List.filter_eq_nil_iff.mpr fun u hu => ?_
      have := hhead u hu
      simp only [decide_eq_true_eq]
      omega

theorem foldl_max_of_le (a : Int) (l : List Trade) (h : ∀ t ∈ l, t.id ≤ a) :
    l.foldl (fun b t => max b t.id) a = a := by
  induction l generalizing a with
  | nil => rfl
  | cons t rest ih =>
    have h1 : max a t.id = a := max_eq_left (h t (by simp))
    simp only [List.foldl_cons, h1]
    exact ih a fun u hu => h u (by simp [hu])

theorem runCycle_snd (w : Int) (f : List Trade) : (runCycle w f).2 = getNewTrades w f := by
  simp only [runCycle]
  split
  · rfl
  · rename_i e
    exact (List.getLast?_eq_none_iff.mp e).symm

theorem le_runCycle_fst (w : Int) (f : List Trade) : w ≤ (runCycle w f).1 := by
  simp only [runCycle]
  split
  · rename_i t e
    have ht : t ∈ getNewTrades w f := List.mem_of_mem_getLast? e
    simp only [getNewTrades, List.mem_reverse] at ht
    have := List.mem_takeWhile_imp ht
    simp only [decide_eq_true_eq] at this
    exact le_of_lt this
  · exact le_refl w

theorem mem_runCycle_snd (w : Int) (f : List Trade) (t : Trade)
    (ht : t ∈ (runCycle w f).2) : w < t.id := by
  rw [runCycle_snd] at ht
  simp only [getNewTrades, List.mem_reverse] at ht
  have := List.mem_takeWhile_imp ht
  simpa using this

/-- On a strictly descending feed, one cycle advances the watermark to
the maximum of the old watermark and every observed id. -/
theorem runCycle_fst_eq (w : Int) (f : List Trade)
    (h : f.Pairwise fun a b => b.id < a.id) :
    (runCycle w f).1 = f.foldl (fun b t => max b t.id) w := by
  cases f with
  | nil => rfl
  | cons t rest =>
    rcases List.pairwise_cons.mp h with ⟨hhead, htail⟩
    by_cases hw : w < t.id
    · have e : (getNewTrades w (t :: rest)).getLast? = some t := by
        simp [getNewTrades, List.getLast?_reverse, List.takeWhile_cons, hw]
      have hrest : ∀ u ∈ rest, u.id ≤ max w t.id := fun u hu =>
        le_trans (le_of_lt (hhead u hu)) (le_max_right _ _)
      simp only [runCycle, e, List.foldl_cons]
      rw [foldl_max_of_le _ rest hrest]
      omega
    · have e : (getNewTrades w (t :: rest)).getLast? = none := by
        simp [getNewTrades, List.getLast?_reverse, List.takeWhile_cons, hw]
      have hrest : ∀ u ∈ rest, u.id ≤ max w t.id := fun u hu =>
        le_trans (le_of_lt (hhead u hu)) (le_max_right _ _)
      simp only [runCycle, e, List.foldl_cons]
      rw [foldl_max_of_le _ rest hrest]
      omega

theorem runCycle_snd_eq_filter (w : Int) (f : List Trade)
    (h : f.Pairwise fun a b => b.id < a.id) :
    (runCycle w f).2 = (f.filter fun t => decide (w < t.id)).reverse := by
  rw [runCycle_snd]
  simp only [getNewTrades]
  rw [takeWhile_newer_eq_filter w f h]

theorem runCycle_snd_sorted (w : Int) (f : List Trade)
    (h : f.Pairwise fun a b => b.id < a.id) :
    (runCycle w f).2.Pairwise fun a b => a.id < b.id := by
  rw [runCycle_snd]
  simp only [getNewTrades]
  rw [List.pairwise_reverse]
  exact List.Pairwise.sublist (List.takeWhile_sublist _) h

theorem monitorTrace_zip (w : Int) (snaps : List (List Trade)) :
    ∀ p ∈ (monitorTrace w snaps).zip snaps,
      p.1.2.1 = (runCycle p.1.1 p.2).2 ∧ p.1.2.2 = (runCycle p.1.1 p.2).1 := by
  induction snaps generalizing w with
  | nil => simp [monitorTrace]
  | cons s rest ih =>
    intro p hp
    simp only [monitorTrace, List.zip_cons_cons, List.mem_cons] at hp
    rcases hp with rfl | hp
    · exact ⟨rfl, rfl⟩
    · exact ih _ p hp

theorem monitorTrace_fst_ge (w : Int) (snaps : List (List Trade)) :
    ∀ e ∈ monitorTrace w snaps, w ≤ e.1 ∧ e.1 ≤ e.2.2 := by
  induction snaps generalizing w with
  | nil => simp [monitorTrace]
  | cons s rest ih =>
    intro e he
    simp only [monitorTrace, List.mem_cons] at he
    rcases he with rfl | he
    · exact ⟨le_refl w, le_runCycle_fst w s⟩
    · have h2 := ih (runCycle w s).1 e he
      exact ⟨le_trans (le_runCycle_fst w s) h2.1, h2.2⟩

theorem monitorTrace_batch_newer (w : Int) (snaps : List (List Trade)) :
    ∀ e ∈ monitorTrace w snaps, ∀ t ∈ e.2.1, e.1 < t.id := by
  induction snaps generalizing w with
  | nil => simp [monitorTrace]
  | cons s rest ih =>
    intro e he t ht
    simp only [monitorTrace, List.mem_cons] at he
    rcases he with rfl | he
    · exact mem_runCycle_snd w s t ht
    · exact ih _ e he t ht

theorem finalWatermark_cons (w : Int) (s : List Trade) (rest : List (List Trade)) :
    finalWatermark w (s :: rest) = finalWatermark (runCycle w s).1 rest := rfl

theorem le_finalWatermark (w : Int) (snaps : List (List Trade)) :
    w ≤ finalWatermark w snaps := by
  induction snaps generalizing w with
  | nil => exact le_refl w
  | cons s rest ih =>
    rw [finalWatermark_cons]
    exact le_trans (le_runCycle_fst w s) (ih _)

theorem finalWatermark_append (w : Int) (xs ys : List (List Trade)) :
    finalWatermark w (xs ++ ys) = finalWatermark (finalWatermark w xs) ys :=
  List.foldl_append _ _ _ _

theorem finalWatermark_take_mono (w : Int) (snaps : List (List Trade)) {k j : Nat}
    (h : k ≤ j) :
    finalWatermark w (snaps.take k) ≤ finalWatermark w (snaps.take j) := by
  have h1 := List.take_append_drop k (snaps.take j)
  rw [List.take_take, min_eq_left h] at h1
  calc finalWatermark w (snaps.take k)
      ≤ finalWatermark (finalWatermark w (snaps.take k)) ((snaps.take j).drop k) :=
        le_finalWatermark _ _
    _ = finalWatermark w (snaps.take k ++ (snaps.take j).drop k) :=
        (finalWatermark_append _ _ _).symm
    _ = finalWatermark w (snaps.take j) := by rw [h1]

theorem monitorTrace_drop_ge (w : Int) (snaps : List (List Trade)) (k : Nat) :
    ∀ e ∈ (monitorTrace w snaps).drop k, finalWatermark w (snaps.take k) ≤ e.1 := by
  induction snaps generalizing w k with
  | nil => simp [monitorTrace]
  | cons s rest ih =>
    cases k with
    | zero =>
      intro e he
      simp only [List.drop_zero] at he
      simpa [finalWatermark] using (monitorTrace_fst_ge w (s :: rest) e he).1
    | succ k =>
      intro e he
      simp only [monitorTrace, List.drop_succ_cons] at he
      have h2 := ih (runCycle w s).1 k e he
      simpa [List.take_succ_cons, finalWatermark_cons] using h2

theorem finalWatermark_eq_max (w : Int) (snaps : List (List Trade))
    (hs : ∀ s ∈ snaps, s.Pairwise fun a b => b.id < a.id) :
    finalWatermark w snaps
      = snaps.foldl (fun a s => s.foldl (fun b t => max b t.id) a) w := by
  induction snaps generalizing w with
  | nil => rfl
  | cons s rest ih =>
    rw [finalWatermark_cons, List.foldl_cons, runCycle_fst_eq w s (hs s (by simp))]
    exact ih _ fun u hu => hs u (by simp [hu])

/-! ### LiveBroker startup lemmas -/

theorem seedOpenOrders_preserve (st : LiveBrokerSt) (oos : List OpenOrder) :
    (seedOpenOrders st oos).1.stop = st.stop
    ∧ (seedOpenOrders st oos).1.monitorStarted = st.monitorStarted := by
  induction oos generalizing st with
  | nil => exact ⟨rfl, rfl⟩
  | cons oo rest ih =>
    simp only [seedOpenOrders]
    split
    · exact ⟨rfl, rfl⟩
    · exact ih _

theorem refreshAccountBalance_monitorStarted (st : LiveBrokerSt) (bal : Except Unit Balance) :
    (refreshAccountBalance st bal).1.monitorStarted = st.monitorStarted := by
  cases bal <;> rfl

theorem refreshAccountBalance_raised_stop (st : LiveBrokerSt) (bal : Except Unit Balance)
    (h : (refreshAccountBalance st bal).2 = true) :
    (refreshAccountBalance st bal).1.stop = true := by
  cases bal with
  | error e => rfl
  | ok b => simp [refreshAccountBalance] at h

theorem refreshOpenOrders_monitorStarted (st : LiveBrokerSt)
    (oo : Except Unit (List OpenOrder)) :
    (refreshOpenOrders st oo).1.monitorStarted = st.monitorStarted := by
  cases oo with
  | error e => rfl
  | ok oos =>
    have hseed := (seedOpenOrders_preserve { st with stop := true } oos).2
    simp only [refreshOpenOrders]
    split
    · exact hseed
    · simpa using hseed

theorem refreshOpenOrders_raised_stop (st : LiveBrokerSt) (oo : Except Unit (List OpenOrder))
    (h : (refreshOpenOrders st oo).2 = true) :
    (refreshOpenOrders st oo).1.stop = true := by
  cases oo with
  | error e => rfl
  | ok oos =>
    have hseed := (seedOpenOrders_preserve { st with stop := true } oos).1
    simp only [refreshOpenOrders] at h ⊢
    by_cases hr : (seedOpenOrders { st with stop := true } oos).2 = true
    · simpa [hr] using hseed
    · simp [hr] at h

/-! ### Claim theorems -/

/-- C1: the claim says a trade that brings an order's filled quantity up
to the full order quantity causes the order to be removed from the
active-orders map during the processing of that same trade.  The code
checks `order.isActive()` before `order.addExecutionInfo(...)`, so the
fully filling trade `c1Trade` leaves the (now Filled) order in the
active-orders map even though the emitted event is classified Filled:
the removal the claim requires does not happen. -/
theorem fullFill_leaves_order_in_active_map :
    ((onUserTrade (fun q => q) c1Broker c1Trade).2.1.map fun e => e.eventType)
        = [OrderEventType.filled]
    ∧ alistLookup 1 (onUserTrade (fun q => q) c1Broker c1Trade).1.activeOrders
        = some (c1Order.addExecutionInfo 1)
    ∧ (c1Order.addExecutionInfo 1).state = OrderState.filled := by
  refine ⟨?_, ?_, ?_⟩ <;>
    norm_num [onUserTrade, c1Broker, c1Trade, c1Order, initialState, alistLookup, alistUpdate,
      alistInsert, alistErase, Order.addExecutionInfo, Order.isActive, Order.isFilled, btc_symbol]

/-- C2: when the exchange-side cancel call raises, `cancelOrder`
propagates the failure and mutates nothing: the broker state is
unchanged (so the order stays in the active-orders map), the order is
not transitioned, and no Canceled event is emitted. -/
theorem cancelOrder_http_failure_no_mutation (st : LiveBrokerSt) (order : Order) :
    (cancelOrder st order false).raised = some PyError.httpError
    ∧ (cancelOrder st order false).st = st
    ∧ (cancelOrder st order false).orderAfter = order
    ∧ (cancelOrder st order false).events = []
    ∧ alistLookup order.id (cancelOrder st order false).st.activeOrders
        = alistLookup order.id st.activeOrders := by
  simp [cancelOrder]

/-- C3: across every sequence of fetch cycles over newest-first
(strictly descending) snapshots, the watermark is monotonically
non-decreasing, the final watermark equals the maximum trade id ever
observed, each cycle publishes exactly the fetched trades with id
strictly above the prior watermark in oldest-first order, and no trade
with id at or below a previously-observed watermark is ever
re-published. -/
theorem tradeMonitor_watermark_correct (w0 : Int) (snaps : List (List Trade))
    (hs : ∀ s ∈ snaps, s.Pairwise fun a b => b.id < a.id) :
    (∀ k j : Nat, k ≤ j →
        finalWatermark w0 (snaps.take k) ≤ finalWatermark w0 (snaps.take j))
    ∧ finalWatermark w0 snaps
        = snaps.foldl (fun a s => s.foldl (fun b t => max b t.id) a) w0
    ∧ (∀ p ∈ (monitorTrace w0 snaps).zip snaps,
        p.1.2.1 = (p.2.filter fun t => decide (p.1.1 < t.id)).reverse
        ∧ p.1.2.1.Pairwise (fun a b => a.id < b.id)
        ∧ ∀ t ∈ p.1.2.1, p.1.1 < t.id)
    ∧ (∀ k : Nat, ∀ e ∈ (monitorTrace w0 snaps).drop k, ∀ t ∈ e.2.1,
        finalWatermark w0 (snaps.take k) < t.id) := by
  refine ⟨fun k j hkj => finalWatermark_take_mono w0 snaps hkj,
          finalWatermark_eq_max w0 snaps hs, ?_, ?_⟩
  · rintro ⟨e, s⟩ hp
    have hz := monitorTrace_zip w0 snaps ⟨e, s⟩ hp
    have hmem := List.of_mem_zip hp
    have hsorted := hs s hmem.2
    refine ⟨?_, ?_, ?_⟩
    · rw [hz.1, runCycle_snd_eq_filter e.1 s hsorted]
    · rw [hz.1]
      exact runCycle_snd_sorted e.1 s hsorted
    · intro t ht
      rw [hz.1] at ht
      exact mem_runCycle_snd e.1 s t ht
  · intro k e he t ht
    have h1 := monitorTrace_drop_ge w0 snaps k e he
    have h2 := monitorTrace_batch_newer w0 snaps e (List.mem_of_mem_drop he) t ht
    omega

/-- Witness for C3 at the concrete two-cycle run `c3Snaps` starting
from the sentinel watermark -1. -/
theorem tradeMonitor_watermark_correct_witness :
    (∀ s ∈ c3Snaps, s.Pairwise fun a b => b.id < a.id)
    ∧ ((∀ k j : Nat, k ≤ j →
          finalWatermark (-1) (c3Snaps.take k) ≤ finalWatermark (-1) (c3Snaps.take j))
      ∧ finalWatermark (-1) c3Snaps
          = c3Snaps.foldl (fun a s => s.foldl (fun b t => max b t.id) a) (-1)
      ∧ (∀ p ∈ (monitorTrace (-1) c3Snaps).zip c3Snaps,
          p.1.2.1 = (p.2.filter fun t => decide (p.1.1 < t.id)).reverse
          ∧ p.1.2.1.Pairwise (fun a b => a.id < b.id)
          ∧ ∀ t ∈ p.1.2.1, p.1.1 < t.id)
      ∧ (∀ k : Nat, ∀ e ∈ (monitorTrace (-1) c3Snaps).drop k, ∀ t ∈ e.2.1,
          finalWatermark (-1) (c3Snaps.take k) < t.id)) :=
  ⟨by
      intro s hsmem
      simp only [c3Snaps, c3Trade, List.mem_cons, List.not_mem_nil, or_false] at hsmem
      rcases hsmem with rfl | rfl <;>
        simp [List.pairwise_cons],
   tradeMonitor_watermark_correct (-1) c3Snaps (by
      intro s hsmem
      simp only [c3Snaps, c3Trade, List.mem_cons, List.not_mem_nil, or_false] at hsmem
      rcases hsmem with rfl | rfl <;>
        simp [List.pairwise_cons])⟩

/-- C4: if the startup balance refresh or the startup open-order
refresh raises, `start` does not start the trade monitor, the raise
propagates to the caller, and `eof` afterwards reports true. -/
theorem start_refresh_failure_halts (st : LiveBrokerSt) (bal : Except Unit Balance)
    (oo : Except Unit (List OpenOrder)) (tm : Except Unit (List Trade))
    (hm : st.monitorStarted = false)
    (h : (refreshAccountBalance st bal).2 = true
        ∨ (refreshOpenOrders (refreshAccountBalance st bal).1 oo).2 = true) :
    (startBroker st bal oo tm).2 = true
    ∧ (startBroker st bal oo tm).1.monitorStarted = false
    ∧ eof (startBroker st bal oo tm).1 = true := by
  by_cases h1 : (refreshAccountBalance st bal).2 = true
  · simp only [startBroker, h1, if_true]
    refine ⟨by simp [h1], ?_, ?_⟩
    · rw [refreshAccountBalance_monitorStarted]
      exact hm
    · exact refreshAccountBalance_raised_stop st bal h1
  · have h2 : (refreshOpenOrders (refreshAccountBalance st bal).1 oo).2 = true :=
      h.resolve_left h1
    rw [Bool.not_eq_true] at h1
    simp only [startBroker, h1, Bool.false_eq_true, if_false, h2, if_true]
    refine ⟨by simp [h1, h2, startBroker], ?_, ?_⟩
    · rw [refreshOpenOrders_monitorStarted, refreshAccountBalance_monitorStarted]
      exact hm
    · exact refreshOpenOrders_raised_stop _ oo h2

/-- Witness for C4: a failing balance fetch on the freshly constructed
broker. -/
theorem start_refresh_failure_halts_witness :
    initialState.monitorStarted = false
    ∧ ((refreshAccountBalance initialState (Except.error ())).2 = true
        ∨ (refreshOpenOrders (refreshAccountBalance initialState (Except.error ())).1
            (Except.ok [])).2 = true)
    ∧ (startBroker initialState (Except.error ()) (Except.ok []) (Except.ok [])).2 = true
    ∧ (startBroker initialState (Except.error ()) (Except.ok [])
        (Except.ok [])).1.monitorStarted = false
    ∧ eof (startBroker initialState (Except.error ()) (Except.ok []) (Except.ok [])).1
        = true :=
  ⟨rfl, Or.inl rfl,
   (start_refresh_failure_halts initialState (Except.error ()) (Except.ok []) (Except.ok [])
      rfl (Or.inl rfl)).1,
   (start_refresh_failure_halts initialState (Except.error ()) (Except.ok []) (Except.ok [])
      rfl (Or.inl rfl)).2.1,
   (start_refresh_failure_halts initialState (Except.error ()) (Except.ok []) (Except.ok [])
      rfl (Or.inl rfl)).2.2⟩

/-- C5 counterexample: the claim extends the no-zero-entry invariant to
the full balance refresh, but `refreshAccountBalance` stores the
fetched BTC amount unconditionally: refreshing with zero available BTC
leaves an entry with quantity exactly zero in the holdings map. -/
theorem refresh_zero_balance_leaves_zero_entry :
    alistLookup btc_symbol
        (refreshAccountBalance initialState
          (Except.ok { usdAvailable := 100, btcAvailable := 0 })).1.shares
      = some 0 := rfl

/-- C5 as amended: for trade application the invariant holds — when the
instrument-rounded new holding is exactly zero the instrument's entry
is removed entirely, trade application never creates a zero-quantity
entry, and `getShares` returns 0 for any absent instrument.  (The full
balance refresh is excluded: see the counterexample.) -/
theorem trade_holdings_zero_removed (rq : ℚ → ℚ) (st : LiveBrokerSt) (trade : Trade)
    (order : Order)
    (h : alistLookup trade.orderId st.activeOrders = some order)
    (hz : rq ((alistLookup btc_symbol st.shares).getD 0 + trade.btc) = 0) :
    alistLookup btc_symbol (onUserTrade rq st trade).1.shares = none
    ∧ getShares (onUserTrade rq st trade).1 btc_symbol = 0
    ∧ (∀ trade' : Trade, (∀ p ∈ st.shares, p.2 ≠ 0) →
        ∀ p ∈ (onUserTrade rq st trade').1.shares, p.2 ≠ 0)
    ∧ (∀ (st' : LiveBrokerSt) (instrument : String),
        alistLookup instrument st'.shares = none → getShares st' instrument = 0) := by
  refine ⟨?_, ?_, ?_, ?_⟩
  · simp only [onUserTrade, h, hz, if_true]
    simpa using alistLookup_erase_self btc_symbol _
  · simp only [getShares]
    rw [show alistLookup btc_symbol (onUserTrade rq st trade).1.shares = none from by
      simp only [onUserTrade, h, hz, if_true]
      simpa using alistLookup_erase_self btc_symbol _]
    rfl
  · intro trade' hnz p hp
    rcases e : alistLookup trade'.orderId st.activeOrders with _ | o
    · simp only [onUserTrade, e] at hp
      exact hnz p hp
    · simp only [onUserTrade, e] at hp
      by_cases hb : rq ((alistLookup btc_symbol st.shares).getD 0 + trade'.btc) = 0
      · simp only [hb, if_true] at hp
        have h2 := mem_alistErase hp
        have h3 := mem_alistInsert h2.2
        rcases h3 with rfl | h3
        · exact absurd rfl h2.1
        · exact hnz p h3
      · simp only [hb, if_false] at hp
        have h3 := mem_alistInsert hp
        rcases h3 with rfl | h3
        · simpa using hb
        · exact hnz p h3
  · intro st' instrument h'
    simp [getShares, h']

/-- Witness for C5 (amended): a sell of the whole position whose
rounded holding is zero removes the BTC entry and `getShares` reads 0. -/
theorem trade_holdings_zero_removed_witness :
    alistLookup c5Trade.orderId c5Broker.activeOrders = some c5Order
    ∧ (fun _ : ℚ => (0 : ℚ)) ((alistLookup btc_symbol c5Broker.shares).getD 0 + c5Trade.btc) = 0
    ∧ alistLookup btc_symbol (onUserTrade (fun _ => 0) c5Broker c5Trade).1.shares = none
    ∧ getShares (onUserTrade (fun _ => 0) c5Broker c5Trade).1 btc_symbol = 0 :=
  ⟨rfl, rfl,
   (trade_holdings_zero_removed (fun _ => 0) c5Broker c5Trade c5Order rfl rfl).1,
   (trade_holdings_zero_removed (fun _ => 0) c5Broker c5Trade c5Order rfl rfl).2.1⟩

/-- C6: for every trade applied to a tracked active order, the new cash
balance is `round(cash + usdAmount - fee, 2)`, and the resulting cash is
already rounded to two decimal places. -/
theorem cash_update_rounded (rq : ℚ → ℚ) (st : LiveBrokerSt) (trade : Trade) (order : Order)
    (h : alistLookup trade.orderId st.activeOrders = some order) :
    (onUserTrade rq st trade).1.cash = roundTo 2 (st.cash + trade.usd - trade.fee)
    ∧ roundTo 2 (onUserTrade rq st trade).1.cash = (onUserTrade rq st trade).1.cash := by
  have h1 : (onUserTrade rq st trade).1.cash = roundTo 2 (st.cash + trade.usd - trade.fee) := by
    simp [onUserTrade, h]
  exact ⟨h1, by rw [h1, roundTo_roundTo]⟩

/-- Witness for C6 at the spec's scenario trade (cost 40.00, fee 0.10)
applied to a broker holding 1000 cash. -/
theorem cash_update_rounded_witness :
    alistLookup c6Trade.orderId c6Broker.activeOrders = some c6Order
    ∧ (onUserTrade (fun q => q) c6Broker c6Trade).1.cash
        = roundTo 2 (c6Broker.cash + c6Trade.usd - c6Trade.fee)
    ∧ roundTo 2 (onUserTrade (fun q => q) c6Broker c6Trade).1.cash
        = (onUserTrade (fun q => q) c6Broker c6Trade).1.cash :=
  ⟨rfl,
   (cash_update_rounded (fun q => q) c6Broker c6Trade c6Order rfl).1,
   (cash_update_rounded (fun q => q) c6Broker c6Trade c6Order rfl).2⟩

/-- C7: a polling cycle whose fetch raises leaves the watermark exactly
where it was, publishes nothing, writes one critical log record, and
the loop goes on to process the remaining cycles — the failure never
terminates the polling thread. -/
theorem pollerCycle_failure_swallowed (w : Int) (rest : List (Except Unit (List Trade))) :
    runCyclesE w (Except.error () :: rest)
      = ((runCyclesE w rest).1, (runCyclesE w rest).2.1, 1 + (runCyclesE w rest).2.2) := by
  simp [runCyclesE, runCycleE]

/-- C8: a trade whose order id is not tracked in the active-orders map
leaves the broker state untouched, emits no event, and writes exactly
one informational log record. -/
theorem orphan_trade_no_mutation (rq : ℚ → ℚ) (st : LiveBrokerSt) (trade : Trade)
    (h : alistLookup trade.orderId st.activeOrders = none) :
    onUserTrade rq st trade = (st, [], [LogMsg.tradeNotActive trade.id trade.orderId]) := by
  simp [onUserTrade, h]

/-- Witness for C8: the spec's scenario of a trade referencing unknown
order id 77. -/
theorem orphan_trade_no_mutation_witness :
    alistLookup c8Trade.orderId initialState.activeOrders = none
    ∧ onUserTrade (fun q => q) initialState c8Trade
        = (initialState, [], [LogMsg.tradeNotActive 5 77]) :=
  ⟨rfl, orphan_trade_no_mutation (fun q => q) initialState c8Trade rfl⟩

/-- C9: every unsupported operation raises for every input — the
"not supported" rejections and the NotImplementedError signals — and
none of them ever returns a successor state, so no broker state is
mutated and none silently returns. -/
theorem unsupported_operations_always_raise :
    (∀ st order, submitOrder st order = .error PyError.notImplementedError)
    ∧ (∀ st action instrument quantity onClose,
        createMarketOrder st action instrument quantity onClose
          = .error PyError.marketOrdersNotSupported)
    ∧ (∀ st action instrument limitPrice quantity,
        createLimitOrder st action instrument limitPrice quantity
          = .error PyError.notImplementedError)
    ∧ (∀ st action instrument stopPrice quantity,
        createStopOrder st action instrument stopPrice quantity
          = .error PyError.stopOrdersNotSupported)
    ∧ (∀ st action instrument stopPrice limitPrice quantity,
        createStopLimitOrder st action instrument stopPrice limitPrice quantity
          = .error PyError.stopLimitOrdersNotSupported) :=
  ⟨fun _ _ => rfl, fun _ _ _ _ _ => rfl, fun _ _ _ _ _ => rfl, fun _ _ _ _ _ => rfl,
   fun _ _ _ _ _ _ => rfl⟩

/-- C10: cancelling an order that is not in the active-orders map first
performs the exchange-side cancel call and only then hits the KeyError
from deleting the absent local entry: the state is unchanged, the order
is never transitioned to Canceled, and no event is emitted, even though
the exchange cancellation was already requested. -/
theorem cancelOrder_unknown_order_keyError (st : LiveBrokerSt) (order : Order)
    (h : alistLookup order.id st.activeOrders = none) :
    (cancelOrder st order true).httpCalled = true
    ∧ (cancelOrder st order true).raised = some PyError.keyError
    ∧ (cancelOrder st order true).st = st
    ∧ (cancelOrder st order true).orderAfter = order
    ∧ (cancelOrder st order true).events = [] := by
  simp [cancelOrder, h]

/-- Witness for C10: cancelling the untracked order `c10Order` on the
fresh broker. -/
theorem cancelOrder_unknown_order_keyError_witness :
    alistLookup c10Order.id initialState.activeOrders = none
    ∧ (cancelOrder initialState c10Order true).raised = some PyError.keyError
    ∧ (cancelOrder initialState c10Order true).st = initialState
    ∧ (cancelOrder initialState c10Order true).events = [] :=
  ⟨rfl,
   (cancelOrder_unknown_order_keyError initialState c10Order rfl).2.1,
   (cancelOrder_unknown_order_keyError initialState c10Order rfl).2.2.1,
   (cancelOrder_unknown_order_keyError initialState c10Order rfl).2.2.2.2⟩

end PyAlgoTrade
